import Mathlib

/-!
Verification of the harvester streaming-source core: the `FileInput` and
`UrlInput` implementations of the `Input` trait (src/input/file.rs,
src/input/url.rs) and the `hostsfile_adapter` pump loop
(src/output/hostsfile.rs), shallowly embedded over explicit state passing.

Bytes are `Nat` values below 256; text is a list of Unicode code points
(`Nat`).  Fallible Rust calls returning `anyhow::Result` become
`Except String`.  Asynchronous effects (file system, gzip decompression,
tar parsing, HTTP) are supplied as explicit deterministic environments.
-/

namespace Harvester

/-! ## UTF-8 codec

`String::from_utf8` / `read_line` validity is modelled by a byte-level
UTF-8 decoder returning the decoded code points, rejecting overlong
forms, surrogates and out-of-range values exactly as Rust does. -/

/-- Is `b` a UTF-8 continuation byte (`0x80..=0xBF`)? -/
def isCont (b : Nat) : Prop :=
  0x80 ≤ b ∧ b ≤ 0xBF

instance (b : Nat) : Decidable (isCont b) := by
  unfold isCont; infer_instance

/-- Decode one UTF-8 scalar from the head of a byte list: the code
point and the remaining bytes; `none` on a malformed head (overlong,
surrogate, out of range, truncated, or empty input). -/
def utf8DecodeChar : List Nat → Option (Nat × List Nat)
  | [] => none
  | b :: rest =>
    if b < 0x80 then some (b, rest)
    else if 0xC2 ≤ b ∧ b ≤ 0xDF then
      match rest with
      | c1 :: r =>
        if isCont c1 then some ((b - 0xC0) * 0x40 + (c1 - 0x80), r) else none
      | [] => none
    else if b = 0xE0 then
      match rest with
      | c1 :: c2 :: r =>
        if (0xA0 ≤ c1 ∧ c1 ≤ 0xBF) ∧ isCont c2 then
          some ((c1 - 0x80) * 0x40 + (c2 - 0x80), r)
        else none
      | _ => none
    else if (0xE1 ≤ b ∧ b ≤ 0xEC) ∨ (0xEE ≤ b ∧ b ≤ 0xEF) then
      match rest with
      | c1 :: c2 :: r =>
        if isCont c1 ∧ isCont c2 then
          some ((b - 0xE0) * 0x1000 + (c1 - 0x80) * 0x40 + (c2 - 0x80), r)
        else none
      | _ => none
    else if b = 0xED then
      match rest with
      | c1 :: c2 :: r =>
        if (0x80 ≤ c1 ∧ c1 ≤ 0x9F) ∧ isCont c2 then
          some (0xD000 + (c1 - 0x80) * 0x40 + (c2 - 0x80), r)
        else none
      | _ => none
    else if b = 0xF0 then
      match rest with
      | c1 :: c2 :: c3 :: r =>
        if (0x90 ≤ c1 ∧ c1 ≤ 0xBF) ∧ isCont c2 ∧ isCont c3 then
          some ((c1 - 0x80) * 0x1000 + (c2 - 0x80) * 0x40 + (c3 - 0x80), r)
        else none
      | _ => none
    else if 0xF1 ≤ b ∧ b ≤ 0xF3 then
      match rest with
      | c1 :: c2 :: c3 :: r =>
        if isCont c1 ∧ isCont c2 ∧ isCont c3 then
          some ((b - 0xF0) * 0x40000 + (c1 - 0x80) * 0x1000 +
            (c2 - 0x80) * 0x40 + (c3 - 0x80), r)
        else none
      | _ => none
    else if b = 0xF4 then
      match rest with
      | c1 :: c2 :: c3 :: r =>
        if (0x80 ≤ c1 ∧ c1 ≤ 0x8F) ∧ isCont c2 ∧ isCont c3 then
          some (0x100000 + (c1 - 0x80) * 0x1000 +
            (c2 - 0x80) * 0x40 + (c3 - 0x80), r)
        else none
      | _ => none
    else none

/-- Fuel-bounded decode loop; a scalar consumes at least one byte, so
fuel equal to the byte count always suffices. -/
def utf8DecodeAux : Nat → List Nat → Option (List Nat)
  | _, [] => some []
  | 0, _ :: _ => none
  | fuel + 1, b :: rest =>
    match utf8DecodeChar (b :: rest) with
    | none => none
    | some p => (utf8DecodeAux fuel p.2).map (p.1 :: ·)

/-- Decode a UTF-8 byte list into its code points; `none` on any
malformed sequence, exactly as Rust `String::from_utf8`. -/
def utf8Decode (l : List Nat) : Option (List Nat) :=
  utf8DecodeAux l.length l

/-- A byte list is valid UTF-8 when it decodes. -/
def utf8Valid (l : List Nat) : Bool :=
  (utf8Decode l).isSome

/-- A Unicode scalar value: in range and not a surrogate. -/
def isScalar (c : Nat) : Prop :=
  c < 0x110000 ∧ ¬(0xD800 ≤ c ∧ c ≤ 0xDFFF)

instance (c : Nat) : Decidable (isScalar c) := by
  unfold isScalar; infer_instance

/-- UTF-8 encoding of one scalar value. -/
def utf8EncodeChar (c : Nat) : List Nat :=
  if c < 0x80 then [c]
  else if c < 0x800 then [0xC0 + c / 0x40, 0x80 + c % 0x40]
  else if c < 0x10000 then
    [0xE0 + c / 0x1000, 0x80 + c / 0x40 % 0x40, 0x80 + c % 0x40]
  else
    [0xF0 + c / 0x40000, 0x80 + c / 0x1000 % 0x40,
     0x80 + c / 0x40 % 0x40, 0x80 + c % 0x40]

/-- UTF-8 encoding of a code-point list. -/
def utf8Encode (l : List Nat) : List Nat :=
  (l.map utf8EncodeChar).flatten

/-- Code points of a Lean string literal (used only to write concrete
test vectors compactly). -/
def strCps (s : String) : List Nat :=
  s.data.map Char.toNat

/-! ## Pump loop (src/output/hostsfile.rs, `hostsfile_adapter`)

The loop is modelled over the sequence of results its successive
`reader.chunk()` calls return (`results`), the bytes so far written to
the sink (`sink`), and the errors so far sent on the message channel
(`msgs`).  The cancellation flag `is_processing` is shared state that
other tasks may flip between iterations, so it is modelled as the
sequence of values the load at iteration `i` observes.  The in-memory
sink's `write_all` (a `Cursor` in the repository's test) always
succeeds, so the write-error branch sends nothing here. -/

/-- One result of a `chunk()` call: `Ok(Some bytes)`, `Ok(None)`, or
`Err(message)`. -/
abbrev ChunkRes := Except String (Option (List Nat))

/-- Rust `char::is_whitespace`: the Unicode `White_Space` property. -/
def isRustWhitespace (c : Nat) : Bool :=
  decide ((0x09 ≤ c ∧ c ≤ 0x0D) ∨ c = 0x20 ∨ c = 0x85 ∨ c = 0xA0 ∨
    c = 0x1680 ∨ (0x2000 ≤ c ∧ c ≤ 0x200A) ∨ c = 0x2028 ∨ c = 0x2029 ∨
    c = 0x202F ∨ c = 0x205F ∨ c = 0x3000)

/-- Rust `str::trim_end` on code points: drop trailing whitespace. -/
def trimEnd (l : List Nat) : List Nat :=
  (l.reverse.dropWhile isRustWhitespace).reverse

/-- Code points of the fixed record head `"0.0.0.0 "`. -/
def recordHead : List Nat :=
  strCps "0.0.0.0 "

/-- The bytes one `Ok(Some chunk)` iteration appends to the sink:
decode as UTF-8; on failure nothing is written (the chunk is skipped);
on success write `"0.0.0.0 " ++ trim_end(text) ++ "\n"` re-encoded. -/
def transformChunk (chunk : List Nat) : List Nat :=
  match utf8Decode chunk with
  | none => []
  | some cps => utf8Encode (recordHead ++ trimEnd cps ++ [0x0A])

/-- The `hostsfile_adapter` loop.  Returns the final sink bytes, the
channel messages sent, and the chunk results never consumed (the loop
returned before calling `chunk()` for them). -/
def hostsfile_adapter (is_processing : Nat → Bool) :
    Nat → List ChunkRes → List Nat → List String →
      List Nat × List String × List ChunkRes
  | _, [], sink, msgs => (sink, msgs, [])
  | i, r :: rest, sink, msgs =>
    if is_processing i = false then (sink, msgs, r :: rest)
    else
      match r with
      | .ok (some chunk) =>
        match utf8Decode chunk with
        | none =>
          -- String::from_utf8 failed: the anyhow value is built and
          -- dropped, nothing is written or sent; `continue`
          hostsfile_adapter is_processing (i + 1) rest sink msgs
        | some cps =>
          hostsfile_adapter is_processing (i + 1) rest
            (sink ++ utf8Encode (recordHead ++ trimEnd cps ++ [0x0A])) msgs
      | .ok none => (sink, msgs, rest)
      | .error e => (sink, msgs ++ [e], rest)

/-! ## File input (src/input/file.rs)

The file system and the external decompression/archive crates
(`async_compression`, `tokio_tar`) are modelled as a deterministic
environment: `fs` maps a path to its byte content (or `none` when the
open fails), `gunzip` is the decompressed stream of a byte list, and
`tarEntries` lists the readable `(path, content)` entries of a tar
stream in archive order (entries whose header or path fails to parse
are skipped by the source's `if let Ok` chain, hence absent here).
Reads from readers are the deterministic "fill the request" semantics:
a read of `n` bytes returns `min n remaining` bytes. -/

/-- The `Compression` enum of src/input/file.rs. -/
inductive Compression where
  | Gz : Compression
  | TarGz : String → Compression
deriving DecidableEq, Repr

/-- The `Handle` enum: each variant keeps the bytes not yet consumed by
its reader. -/
inductive Handle where
  | File : List Nat → Handle
  | Gz : List Nat → Handle
  | TarGz : List Nat → Handle
deriving DecidableEq, Repr

/-- The deterministic environment standing for the file system and the
external decompression / tar crates. -/
structure FileEnv where
  fs : String → Option (List Nat)
  gunzip : List Nat → List Nat
  tarEntries : List Nat → List (String × List Nat)

/-- The `FileInput` struct: compression mode, path, optional open handle. -/
structure FileInput where
  compression : Option Compression
  path : String
  handle : Option Handle
deriving DecidableEq, Repr

/-- Rust `FileInput::init_handle`: open the file at `path`, build the handle
for the configured compression; for `TarGz` scan the entries in archive
order for the first one whose path equals the wanted member path, and
fail when none matches. -/
def FileInput.init_handle (env : FileEnv) (inp : FileInput) :
    Except String FileInput :=
  match env.fs inp.path with
  | none => .error ("unable to open file " ++ inp.path)
  | some bytes =>
    match inp.compression with
    | some .Gz => .ok { inp with handle := some (.Gz (env.gunzip bytes)) }
    | some (.TarGz wanted) =>
      match (env.tarEntries (env.gunzip bytes)).find? (fun e => e.1 == wanted) with
      | some e => .ok { inp with handle := some (.TarGz e.2) }
      | none => .error "specified list file not found in archive"
    | none => .ok { inp with handle := some (.File bytes) }

/-- Rust `BufRead::read_until(b'\n')`: split off the first line, the
delimiter included when present; the second component is the rest. -/
def readLineBytes : List Nat → List Nat × List Nat
  | [] => ([], [])
  | b :: r =>
    if b = 0x0A then ([0x0A], r)
    else
      let p := readLineBytes r
      (b :: p.1, p.2)

/-- The chunk read once a handle is open.  `File` does `read_line`
(one line, `Err` when its bytes are not valid UTF-8, `None` on zero
bytes); `Gz` and `TarGz` read at most `BUF_SIZE = 1024` bytes, `None`
on zero bytes. -/
def FileInput.chunkOpen (inp : FileInput) (h : Handle) :
    ChunkRes × FileInput :=
  match h with
  | .File remaining =>
    let p := readLineBytes remaining
    if p.1 = [] then (.ok none, inp)
    else if utf8Valid p.1 then
      (.ok (some p.1), { inp with handle := some (.File p.2) })
    else
      (.error
        "Error reading line from file: stream did not contain valid UTF-8",
        { inp with handle := some (.File p.2) })
  | .Gz remaining =>
    if remaining = [] then (.ok none, inp)
    else (.ok (some (remaining.take 1024)),
      { inp with handle := some (.Gz (remaining.drop 1024)) })
  | .TarGz remaining =>
    if remaining = [] then (.ok none, inp)
    else (.ok (some (remaining.take 1024)),
      { inp with handle := some (.TarGz (remaining.drop 1024)) })

/-- Rust `FileInput::chunk`: lazily open (propagating the open error and
keeping `handle = None` on failure), then read from the handle. -/
def FileInput.chunk (env : FileEnv) (inp : FileInput) :
    ChunkRes × FileInput :=
  match inp.handle with
  | none =>
    match inp.init_handle env with
    | .error e => (.error e, inp)
    | .ok inp' =>
      match inp'.handle with
      | some h => inp'.chunkOpen h
      | none => (.ok none, inp')   -- unreachable: init_handle always sets a handle on Ok
  | some h => inp.chunkOpen h

/-- Rust `FileInput::reset`: drop any handle, then `init_handle` again. -/
def FileInput.reset (env : FileEnv) (inp : FileInput) :
    Except String Unit × FileInput :=
  let dropped : FileInput := { inp with handle := none }
  match dropped.init_handle env with
  | .error e => (.error e, dropped)
  | .ok inp' => (.ok (), inp')

/-- Repeated `chunk()` calls: collect results until `Ok(None)` or
`Err` (which end a drain), bounded by `fuel`. -/
def FileInput.drain (env : FileEnv) (inp : FileInput) :
    Nat → List ChunkRes × FileInput
  | 0 => ([], inp)
  | fuel + 1 =>
    let p := inp.chunk env
    match p.1 with
    | .ok (some c) =>
      let q := FileInput.drain env p.2 fuel
      (.ok (some c) :: q.1, q.2)
    | .ok none => ([.ok none], p.2)
    | .error e => ([.error e], p.2)

/-! ## Network input (src/input/url.rs)

`reqwest` is modelled by an environment whose `get` is the (same every
time, the server is deterministic) outcome of `reqwest::get(url)`: a
transport failure or a response carrying status, the body-length size
hint and the remaining transport-delivered chunks. -/

/-- A `reqwest::Response` as the input sees it.  `contentLength` is
what `Response::content_length()` returns — the exact value of the
transport body's `size_hint`, i.e. the number of bytes NOT yet
delivered: for a length-advertised body it starts at the advertised
length, shrinks as chunks are pulled and is `some 0` once the body is
drained; it is `none` throughout for a body of unknown length. -/
structure HttpResponse where
  status : Nat
  contentLength : Option Nat
  chunks : List (List Nat)
deriving DecidableEq, Repr

/-- Environment: outcome of issuing `reqwest::get` for the input's URL. -/
structure UrlEnv where
  get : Except String HttpResponse

/-- The `UrlInput` struct: URL and the optional held response. -/
structure UrlInput where
  url : String
  response : Option HttpResponse
deriving DecidableEq, Repr

/-- Status and body validation plus one body read, performed by
`UrlInput::chunk` on the held response `r` — the checks run on EVERY
call, against the current remaining length: non-OK status is an error
carrying status and URL; a remaining length of exactly zero is an
error; otherwise pull the next transport chunk (the remaining length
shrinking by its size), `Ok(None)` when the transfer is complete. -/
def UrlInput.chunkBody (inp : UrlInput) (r : HttpResponse) :
    ChunkRes × UrlInput :=
  if r.status ≠ 200 then
    (.error ("status code " ++ toString r.status ++ ": " ++ inp.url), inp)
  else if r.contentLength = some 0 then
    (.error ("empty response body: " ++ inp.url), inp)
  else
    match r.chunks with
    | [] => (.ok none, inp)
    | c :: rest =>
      (.ok (some c),
       { inp with response := some { r with
           contentLength := r.contentLength.map (· - c.length),
           chunks := rest } })

/-- Rust `UrlInput::chunk`: issue the request when no response is held
(keeping `response = None` when the request itself fails), store the
response, then validate and read. -/
def UrlInput.chunk (env : UrlEnv) (inp : UrlInput) :
    ChunkRes × UrlInput :=
  match inp.response with
  | none =>
    match env.get with
    | .error e => (.error e, inp)
    | .ok r => UrlInput.chunkBody { inp with response := some r } r
  | some r => inp.chunkBody r

/-- Rust `UrlInput::reset`: issue the request only when no response is held;
a held response is kept as is. -/
def UrlInput.reset (env : UrlEnv) (inp : UrlInput) :
    Except String Unit × UrlInput :=
  match inp.response with
  | none =>
    match env.get with
    | .error e => (.error e, inp)
    | .ok r => (.ok (), { inp with response := some r })
  | some _ => (.ok (), inp)

/-- Repeated `UrlInput::chunk` calls until `Ok(None)` or `Err`,
bounded by `fuel`. -/
def UrlInput.drain (env : UrlEnv) (inp : UrlInput) :
    Nat → List ChunkRes × UrlInput
  | 0 => ([], inp)
  | fuel + 1 =>
    let p := inp.chunk env
    match p.1 with
    | .ok (some c) =>
      let q := UrlInput.drain env p.2 fuel
      (.ok (some c) :: q.1, q.2)
    | .ok none => ([.ok none], p.2)
    | .error e => ([.error e], p.2)

/-! ## Concrete test fixtures

Closed instances used to evaluate the theorems on concrete inputs. -/

/-- The entries of the repository's end-to-end test. -/
def entriesW : List (List Nat) :=
  [strCps "domain.one", strCps "domain.two"]

/-- Two short newline-free lines. -/
def linesW : List (List Nat) :=
  [[0x61], [0x62, 0x62]]

/-- Environment whose every path holds the two `linesW` lines. -/
def envPlainW : FileEnv :=
  ⟨fun _ => some ((linesW.map (· ++ [0x0A])).flatten), id, fun _ => []⟩

/-- Environment whose archive has no `list.txt` member. -/
def envTarW : FileEnv :=
  ⟨fun _ => some [7], id, fun _ => [("other.txt", [1, 2])]⟩

/-- A tar-gz input wanting the absent member `list.txt`. -/
def inpTarW : FileInput :=
  ⟨some (.TarGz "list.txt"), "f", none⟩

/-- Environment where every file open fails. -/
def envFailW : FileEnv :=
  ⟨fun _ => none, id, fun _ => []⟩

/-- A plain-file input whose next line is not valid UTF-8. -/
def inpBadLineW : FileInput :=
  ⟨none, "f", some (.File [0xFF, 0x0A])⟩

/-- The freshly reopened state `reset` produces over `envPlainW`. -/
def s2W : FileInput :=
  ⟨none, "f", some (.File ((linesW.map (· ++ [0x0A])).flatten))⟩

/-- Server answering 404 with an empty body. -/
def env404W : UrlEnv := ⟨.ok ⟨404, none, []⟩⟩

/-- Server answering 200 but advertising `content-length: 0`. -/
def envCl0W : UrlEnv := ⟨.ok ⟨200, some 0, []⟩⟩

/-- Server answering 200, advertising three bytes, in two chunks. -/
def envOkW : UrlEnv := ⟨.ok ⟨200, some 3, [[1, 2], [3]]⟩⟩

/-- Server answering 200 with two chunks and no advertised length. -/
def envChunkedW : UrlEnv := ⟨.ok ⟨200, none, [[1, 2], [3]]⟩⟩

/-- Server whose request itself fails. -/
def envErrW : UrlEnv := ⟨.error "connection refused"⟩

/-- A partially consumed response held by a network input. -/
def respHeldW : HttpResponse := ⟨200, none, [[2]]⟩

/-- The fresh response a re-issued request would install. -/
def freshW : HttpResponse := ⟨200, none, [[1], [2]]⟩

/-- Server always answering `freshW`. -/
def envFreshW : UrlEnv := ⟨.ok freshW⟩

/-- Network input still holding `respHeldW`. -/
def inpHeldW : UrlInput := ⟨"u", some respHeldW⟩

/-! ## Codec lemmas -/

/-- A successful single-scalar decode consumes at least one byte
(destructured form). -/
theorem utf8DecodeChar_length_mk : ∀ {l r : List Nat} {c : Nat},
    utf8DecodeChar l = some (c, r) → r.length < l.length := by
  intro l r c h
  match l with
  | [] => simp [utf8DecodeChar] at h
  | b :: rest =>
    simp only [utf8DecodeChar] at h
    repeat' split at h
    all_goals
      first
      | exact Option.noConfusion h
      | (simp only [Option.some.injEq, Prod.mk.injEq] at h
         obtain ⟨h1, h2⟩ := h
         subst h2
         simp only [List.length_cons]
         omega)

/-- A successful single-scalar decode consumes at least one byte. -/
theorem utf8DecodeChar_length {l : List Nat} {p : Nat × List Nat}
    (h : utf8DecodeChar l = some p) : p.2.length < l.length := by
  obtain ⟨c, r⟩ := p
  exact utf8DecodeChar_length_mk h

/-- Fuel at least the byte count computes the full decode. -/
theorem utf8DecodeAux_eq : ∀ (f : Nat) (l : List Nat), l.length ≤ f →
    utf8DecodeAux f l = utf8Decode l := by
  intro f
  induction f using Nat.strong_induction_on with
  | _ f ih =>
    intro l h
    match l with
    | [] => cases f <;> rfl
    | b :: rest =>
      cases f with
      | zero => simp at h
      | succ k =>
        simp only [List.length_cons] at h
        simp only [utf8Decode, List.length_cons, utf8DecodeAux]
        cases hdc : utf8DecodeChar (b :: rest) with
        | none => rfl
        | some p =>
          have hlen := utf8DecodeChar_length hdc
          simp only [List.length_cons] at hlen
          show (utf8DecodeAux k p.2).map (p.1 :: ·)
            = (utf8DecodeAux rest.length p.2).map (p.1 :: ·)
          rw [ih k (by omega) p.2 (by omega),
            ih rest.length (by omega) p.2 (by omega)]

/-- Unfolding of the decoder at a nonempty byte list. -/
theorem utf8Decode_cons (b : Nat) (rest : List Nat) :
    utf8Decode (b :: rest) =
      match utf8DecodeChar (b :: rest) with
      | none => none
      | some p => (utf8Decode p.2).map (p.1 :: ·) := by
  simp only [utf8Decode, List.length_cons, utf8DecodeAux]
  cases hdc : utf8DecodeChar (b :: rest) with
  | none => rfl
  | some p =>
    have hlen := utf8DecodeChar_length hdc
    simp only [List.length_cons] at hlen
    show (utf8DecodeAux rest.length p.2).map (p.1 :: ·)
      = (utf8Decode p.2).map (p.1 :: ·)
    rw [utf8DecodeAux_eq rest.length p.2 (by omega)]

set_option maxHeartbeats 1600000 in
/-- Single-scalar round trip: decoding starts by stripping exactly the
encoding of the scalar. -/
theorem utf8DecodeChar_encodeChar (c : Nat) (hc : isScalar c)
    (rest : List Nat) :
    utf8DecodeChar (utf8EncodeChar c ++ rest) = some (c, rest) := by
  obtain ⟨hlt, hsur⟩ := hc
  rcases Nat.lt_or_ge c 0x80 with h1 | h1
  · rw [show utf8EncodeChar c = [c] from by
      unfold utf8EncodeChar; rw [if_pos h1]]
    simp only [List.cons_append, List.nil_append, utf8DecodeChar]
    rw [if_pos h1]
  rcases Nat.lt_or_ge c 0x800 with h2 | h2
  · rw [show utf8EncodeChar c = [0xC0 + c / 0x40, 0x80 + c % 0x40] from by
      unfold utf8EncodeChar; rw [if_neg (by omega), if_pos h2]]
    simp only [List.cons_append, List.nil_append, utf8DecodeChar]
    repeat' split
    all_goals try simp only [isCont] at *
    all_goals first
    | (exfalso; omega)
    | (simp only [Option.some.injEq, Prod.mk.injEq, and_true]; omega)
  rcases Nat.lt_or_ge c 0x10000 with h3 | h3
  · rw [show utf8EncodeChar c =
        [0xE0 + c / 0x1000, 0x80 + c / 0x40 % 0x40, 0x80 + c % 0x40] from by
      unfold utf8EncodeChar
      rw [if_neg (by omega), if_neg (by omega), if_pos h3]]
    simp only [List.cons_append, List.nil_append, utf8DecodeChar]
    repeat' split
    all_goals try simp only [isCont] at *
    all_goals first
    | (exfalso; omega)
    | (simp only [Option.some.injEq, Prod.mk.injEq, and_true]; omega)
  · rw [show utf8EncodeChar c =
        [0xF0 + c / 0x40000, 0x80 + c / 0x1000 % 0x40,
         0x80 + c / 0x40 % 0x40, 0x80 + c % 0x40] from by
      unfold utf8EncodeChar
      rw [if_neg (by omega), if_neg (by omega), if_neg (by omega)]]
    simp only [List.cons_append, List.nil_append, utf8DecodeChar]
    repeat' split
    all_goals try simp only [isCont] at *
    all_goals first
    | (exfalso; omega)
    | (simp only [Option.some.injEq, Prod.mk.injEq, and_true]; omega)

/-- Decoding an encoded scalar at the head of a byte list strips
exactly its encoding. -/
theorem utf8Decode_encodeChar_append (c : Nat) (hc : isScalar c)
    (rest : List Nat) :
    utf8Decode (utf8EncodeChar c ++ rest) = (utf8Decode rest).map (c :: ·) := by
  have hne : utf8EncodeChar c ≠ [] := by
    unfold utf8EncodeChar; split_ifs <;> simp
  obtain ⟨b, t, hbt⟩ := List.exists_cons_of_ne_nil hne
  have hdc := utf8DecodeChar_encodeChar c hc rest
  rw [hbt] at hdc ⊢
  rw [List.cons_append] at hdc ⊢
  rw [utf8Decode_cons, hdc]

/-- Round trip: decoding an encoded scalar string gives it back. -/
theorem utf8Decode_encode (l : List Nat) (h : ∀ c ∈ l, isScalar c) :
    utf8Decode (utf8Encode l) = some l := by
  induction l with
  | nil => rfl
  | cons c cs ih =>
    have : utf8Encode (c :: cs) = utf8EncodeChar c ++ utf8Encode cs := by
      simp [utf8Encode]
    rw [this, utf8Decode_encodeChar_append c (h c (by simp)) (utf8Encode cs),
      ih (fun x hx => h x (by simp [hx]))]
    rfl

/-! ## Pump-loop lemmas -/

/-- Applying `trim_end` to a line with its newline is `trim_end` of the line. -/
theorem trimEnd_append_newline (l : List Nat) :
    trimEnd (l ++ [0x0A]) = trimEnd l := by
  unfold trimEnd
  rw [List.reverse_append]
  simp only [List.reverse_cons, List.reverse_nil, List.nil_append,
    List.singleton_append, List.dropWhile_cons]
  rw [if_pos (by decide)]

/-- The transform of an encoded entry-plus-newline chunk. -/
theorem transformChunk_encode (e : List Nat) (h : ∀ c ∈ e, isScalar c) :
    transformChunk (utf8Encode (e ++ [0x0A]))
      = utf8Encode (recordHead ++ trimEnd e ++ [0x0A]) := by
  have hd : utf8Decode (utf8Encode (e ++ [0x0A])) = some (e ++ [0x0A]) := by
    refine utf8Decode_encode _ ?_
    intro c hc
    rcases List.mem_append.1 hc with h1 | h1
    · exact h c h1
    · simp only [List.mem_singleton] at h1
      subst h1
      exact ⟨by norm_num, by omega⟩
  simp only [transformChunk, hd]
  rw [trimEnd_append_newline]

/-- With the flag up, a run of `Ok(Some _)` results appends each
chunk's transform to the sink and consumes them all. -/
theorem hostsfile_adapter_ok_some (chunks : List (List Nat))
    (rest : List ChunkRes) (i : Nat) (sink : List Nat) (msgs : List String) :
    hostsfile_adapter (fun _ => true) i
        (chunks.map (fun c => Except.ok (some c)) ++ rest) sink msgs
      = hostsfile_adapter (fun _ => true) (i + chunks.length) rest
          (sink ++ (chunks.map transformChunk).flatten) msgs := by
  induction chunks generalizing i sink with
  | nil => simp
  | cons c cs ih =>
    simp only [List.map_cons, List.cons_append, hostsfile_adapter]
    rw [if_neg (by simp)]
    cases hdc : utf8Decode c with
    | none =>
      refine (ih (i + 1) sink).trans ?_
      have h1 : i + 1 + cs.length = i + (c :: cs).length := by
        simp only [List.length_cons]; omega
      have h2 : (transformChunk c :: List.map transformChunk cs).flatten
          = (List.map transformChunk cs).flatten := by
        simp only [List.flatten_cons, transformChunk, hdc, List.nil_append]
      rw [h1, h2]
    | some cps =>
      refine (ih (i + 1)
        (sink ++ utf8Encode (recordHead ++ trimEnd cps ++ [0x0A]))).trans ?_
      have h1 : i + 1 + cs.length = i + (c :: cs).length := by
        simp only [List.length_cons]; omega
      have h2 : (transformChunk c :: List.map transformChunk cs).flatten
          = utf8Encode (recordHead ++ trimEnd cps ++ [0x0A]) ++
              (List.map transformChunk cs).flatten := by
        simp only [List.flatten_cons, transformChunk, hdc]
      rw [h1, h2, List.append_assoc]

/-! ## C1 -/

/-- C1: for every sequence of newline-delimited entries pumped through
the loop, the sink receives, per entry and in call order, exactly
`"0.0.0.0 " ++ trim_end(entry) ++ "\n"`; in particular the input lines
`"domain.one\ndomain.two\n"` produce exactly
`"0.0.0.0 domain.one\n0.0.0.0 domain.two\n"`. -/
theorem output_record_format :
    (∀ entries : List (List Nat), (∀ e ∈ entries, ∀ c ∈ e, isScalar c) →
      hostsfile_adapter (fun _ => true) 0
          (entries.map (fun e => Except.ok (some (utf8Encode (e ++ [0x0A])))) ++
            [Except.ok none]) [] []
        = ((entries.map (fun e =>
            utf8Encode (recordHead ++ trimEnd e ++ [0x0A]))).flatten, [], [])) ∧
    hostsfile_adapter (fun _ => true) 0
        [Except.ok (some (strCps "domain.one\n")),
         Except.ok (some (strCps "domain.two\n")), Except.ok none] [] []
      = (strCps "0.0.0.0 domain.one\n0.0.0.0 domain.two\n", [], []) := by
  constructor
  · intro entries h
    have hmap : entries.map (fun e => Except.ok (some (utf8Encode (e ++ [0x0A]))))
        = (entries.map (fun e => utf8Encode (e ++ [0x0A]))).map
            (fun c => (Except.ok (some c) : ChunkRes)) := by
      rw [List.map_map]; rfl
    rw [hmap, hostsfile_adapter_ok_some]
    simp only [hostsfile_adapter]
    rw [if_neg (by simp)]
    simp only [List.nil_append, List.map_map]
    congr 2
    refine List.map_congr_left ?_
    intro e he
    exact transformChunk_encode e (h e he)
  · rfl

/-- C1 witness: the general statement applied to the test entries. -/
theorem output_record_format_witness :
    hostsfile_adapter (fun _ => true) 0
        (entriesW.map (fun e => Except.ok (some (utf8Encode (e ++ [0x0A])))) ++
          [Except.ok none]) [] []
      = ((entriesW.map (fun e =>
          utf8Encode (recordHead ++ trimEnd e ++ [0x0A]))).flatten, [], []) :=
  output_record_format.1 entriesW (by decide)

/-! ## C7 -/

/-- C7: the flag is checked before each iteration; observed stop, the
loop returns at once — nothing read (all results unconsumed), nothing
written, nothing sent. -/
theorem cancellation_stops_loop (flag : Nat → Bool) (i : Nat)
    (results : List ChunkRes) (sink : List Nat) (msgs : List String)
    (h : flag i = false) :
    hostsfile_adapter flag i results sink msgs = (sink, msgs, results) := by
  cases results with
  | nil => rfl
  | cons r rest => simp [hostsfile_adapter, h]

/-- C7 witness: a stopped flag before the first iteration of a
nonempty stream. -/
theorem cancellation_stops_loop_witness :
    hostsfile_adapter (fun _ => false) 0
        [Except.ok (some [0x61]), Except.ok none] [] []
      = ([], [], [Except.ok (some [0x61]), Except.ok none]) :=
  cancellation_stops_loop (fun _ => false) 0 _ [] [] rfl

/-! ## C8 -/

/-- C8: one undecodable chunk amid valid ones is skipped without a
write and without ending the loop; every valid chunk before and after
it is still transformed and written. -/
theorem invalid_chunk_skipped (pre post : List (List Nat)) (bad : List Nat)
    (hbad : utf8Decode bad = none)
    (_hvalid : ∀ e ∈ pre ++ post, (utf8Decode e).isSome = true) :
    hostsfile_adapter (fun _ => true) 0
        ((pre ++ [bad] ++ post).map (fun c => Except.ok (some c)) ++
          [Except.ok none]) [] []
      = (((pre ++ post).map transformChunk).flatten, [], []) := by
  rw [hostsfile_adapter_ok_some]
  simp only [hostsfile_adapter]
  rw [if_neg (by simp)]
  simp only [List.nil_append, List.map_append, List.flatten_append,
    List.map_cons, List.map_nil, List.flatten_cons, List.flatten_nil]
  simp only [transformChunk, hbad, List.nil_append, List.append_nil]

/-- C8 witness: valid `"a\n"`, an invalid `0xFF` chunk, valid `"b\n"`. -/
theorem invalid_chunk_skipped_witness :
    hostsfile_adapter (fun _ => true) 0
        (([[0x61, 0x0A]] ++ [[0xFF]] ++ [[0x62, 0x0A]]).map
            (fun c => Except.ok (some c)) ++ [Except.ok none]) [] []
      = ((([[0x61, 0x0A]] ++ [[0x62, 0x0A]]).map transformChunk).flatten,
         [], []) :=
  invalid_chunk_skipped [[0x61, 0x0A]] [[0x62, 0x0A]] [0xFF]
    (by decide) (by decide)

/-! ## File-input lemmas -/

/-- A successful `init_handle` keeps the descriptor fields and always
installs a handle. -/
theorem FileInput.init_handle_ok {env : FileEnv} {inp inp' : FileInput}
    (h : inp.init_handle env = .ok inp') :
    inp'.compression = inp.compression ∧ inp'.path = inp.path ∧
      inp'.handle ≠ none := by
  unfold FileInput.init_handle at h
  repeat' split at h
  all_goals first
  | exact Except.noConfusion h
  | (injection h with h; subst h; simp)

/-- Reading from an open handle keeps the descriptor fields. -/
theorem FileInput.chunkOpen_fields (inp : FileInput) (hd : Handle) :
    (inp.chunkOpen hd).2.compression = inp.compression ∧
      (inp.chunkOpen hd).2.path = inp.path := by
  unfold FileInput.chunkOpen
  cases hd <;> dsimp only <;> split_ifs <;> simp

/-- The `chunk` call keeps the descriptor fields. -/
theorem FileInput.chunk_fields (env : FileEnv) (inp : FileInput) :
    (FileInput.chunk env inp).2.compression = inp.compression ∧
      (FileInput.chunk env inp).2.path = inp.path := by
  unfold FileInput.chunk
  cases hh : inp.handle with
  | none =>
    cases hinit : inp.init_handle env with
    | error e => exact ⟨rfl, rfl⟩
    | ok inp' =>
      obtain ⟨h1, h2, h3⟩ := FileInput.init_handle_ok hinit
      show ((match inp'.handle with
            | some hd => inp'.chunkOpen hd
            | none => (Except.ok none, inp')).2.compression = inp.compression ∧
          (match inp'.handle with
            | some hd => inp'.chunkOpen hd
            | none => (Except.ok none, inp')).2.path = inp.path)
      cases hh' : inp'.handle with
      | none => exact ⟨h1, h2⟩
      | some hd =>
        have hf := inp'.chunkOpen_fields hd
        exact ⟨hf.1.trans h1, hf.2.trans h2⟩
  | some hd => exact inp.chunkOpen_fields hd

/-- A `drain` keeps the descriptor fields. -/
theorem FileInput.drain_fields (env : FileEnv) : ∀ (fuel : Nat)
    (inp : FileInput),
    (FileInput.drain env inp fuel).2.compression = inp.compression ∧
      (FileInput.drain env inp fuel).2.path = inp.path := by
  intro fuel
  induction fuel with
  | zero => intro inp; exact ⟨rfl, rfl⟩
  | succ k ih =>
    intro inp
    have hc := FileInput.chunk_fields env inp
    simp only [FileInput.drain]
    cases hr : (inp.chunk env).1 with
    | ok o =>
      cases o with
      | none => exact hc
      | some c =>
        have ht := ih (inp.chunk env).2
        exact ⟨ht.1.trans hc.1, ht.2.trans hc.2⟩
    | error e => exact hc

/-- A lazily opening `chunk` call behaves as a `chunk` on the freshly
opened state. -/
theorem FileInput.chunk_unopened {env : FileEnv} {inp inp' : FileInput}
    (h : inp.handle = none) (hinit : inp.init_handle env = .ok inp') :
    FileInput.chunk env inp = FileInput.chunk env inp' := by
  obtain ⟨h1, h2, h3⟩ := FileInput.init_handle_ok hinit
  cases hh' : inp'.handle with
  | none => exact absurd hh' h3
  | some hd => simp only [FileInput.chunk, h, hinit, hh']

/-- A drain started unopened equals the drain from the freshly opened
state. -/
theorem FileInput.drain_unopened {env : FileEnv} {inp inp' : FileInput}
    (h : inp.handle = none) (hinit : inp.init_handle env = .ok inp')
    (fuel : Nat) :
    FileInput.drain env inp (fuel + 1) = FileInput.drain env inp' (fuel + 1) := by
  simp only [FileInput.drain]
  rw [FileInput.chunk_unopened h hinit]

/-! ## C5 -/

/-- C5: a tar-gz input whose member path matches no archive entry
fails to open: both `chunk()` and `reset()` return the open error, and
`chunk()` never returns `Ok(None)`. -/
theorem targz_member_absent (env : FileEnv) (inp : FileInput)
    (wanted : String) (bytes : List Nat)
    (hcmp : inp.compression = some (.TarGz wanted))
    (hh : inp.handle = none)
    (hfs : env.fs inp.path = some bytes)
    (hfind : (env.tarEntries (env.gunzip bytes)).find? (fun e => e.1 == wanted)
      = none) :
    FileInput.chunk env inp
        = (.error "specified list file not found in archive", inp) ∧
      FileInput.reset env inp
        = (.error "specified list file not found in archive",
           { inp with handle := none }) := by
  have hinit : inp.init_handle env
      = .error "specified list file not found in archive" := by
    simp only [FileInput.init_handle, hfs, hcmp, hfind]
  have hinit' : FileInput.init_handle env { inp with handle := none }
      = .error "specified list file not found in archive" := by
    simp only [FileInput.init_handle, hfs, hcmp, hfind]
  constructor
  · simp only [FileInput.chunk, hh, hinit]
  · simp only [FileInput.reset, hinit']

/-- C5 witness: the concrete archive without `list.txt`. -/
theorem targz_member_absent_witness :
    FileInput.chunk envTarW inpTarW
        = (.error "specified list file not found in archive", inpTarW) ∧
      FileInput.reset envTarW inpTarW
        = (.error "specified list file not found in archive",
           { inpTarW with handle := none }) :=
  targz_member_absent envTarW inpTarW "list.txt" [7] rfl rfl rfl rfl

/-! ## Plain-file reading lemmas -/

/-- Running `read_until(b'\n')` on a newline-free line followed by a newline
splits exactly there. -/
theorem readLineBytes_append (l r : List Nat) (h : 0x0A ∉ l) :
    readLineBytes (l ++ 0x0A :: r) = (l ++ [0x0A], r) := by
  induction l with
  | nil => simp [readLineBytes]
  | cons b bs ih =>
    have hb : ¬b = 0x0A := by
      intro hbe; exact h (by simp [hbe])
    have hbs : (0x0A : Nat) ∉ bs := fun hm => h (List.mem_cons_of_mem _ hm)
    simp only [List.cons_append, readLineBytes, if_neg hb, List.append_eq,
      ih hbs]

/-- Draining an open plain-file handle over newline-terminated valid
lines yields each line (newline included) and then `Ok(None)`. -/
theorem FileInput.drain_plain (env : FileEnv) (cmp : Option Compression)
    (p : String) : ∀ (lines : List (List Nat)) (fuel : Nat),
    lines.length < fuel →
    (∀ l ∈ lines, 0x0A ∉ l) →
    (∀ l ∈ lines, utf8Valid (l ++ [0x0A]) = true) →
    FileInput.drain env
        ⟨cmp, p, some (.File ((lines.map (· ++ [0x0A])).flatten))⟩ fuel
      = (lines.map (fun l => Except.ok (some (l ++ [0x0A]))) ++
          [Except.ok none],
         ⟨cmp, p, some (.File [])⟩) := by
  intro lines
  induction lines with
  | nil =>
    intro fuel hf _ _
    cases fuel with
    | zero => omega
    | succ k =>
      simp [FileInput.drain, FileInput.chunk, FileInput.chunkOpen,
        readLineBytes]
  | cons l ls ih =>
    intro fuel hf hnl hv
    cases fuel with
    | zero => omega
    | succ k =>
      have hln : (0x0A : Nat) ∉ l := hnl l (by simp)
      have hlv : utf8Valid (l ++ [0x0A]) = true := hv l (by simp)
      have hrl : readLineBytes (((l :: ls).map (· ++ [0x0A])).flatten)
          = (l ++ [0x0A], (ls.map (· ++ [0x0A])).flatten) := by
        have he : ((l :: ls).map (· ++ [0x0A])).flatten
            = l ++ 0x0A :: (ls.map (· ++ [0x0A])).flatten := by
          simp [List.flatten_cons]
        rw [he, readLineBytes_append l _ hln]
      have hch : FileInput.chunk env
            ⟨cmp, p, some (.File (((l :: ls).map (· ++ [0x0A])).flatten))⟩
          = (.ok (some (l ++ [0x0A])),
             ⟨cmp, p, some (.File ((ls.map (· ++ [0x0A])).flatten))⟩) := by
        simp only [FileInput.chunk, FileInput.chunkOpen, hrl]
        rw [if_neg (by simp), if_pos hlv]
      simp only [FileInput.drain, hch]
      rw [ih k (by simp at hf ⊢; omega) (fun x hx => hnl x (by simp [hx]))
        (fun x hx => hv x (by simp [hx]))]
      simp

/-- Payload extraction over a line-chunk result list. -/
theorem filterMap_payload (lines : List (List Nat)) :
    ((lines.map (fun l => (Except.ok (some (l ++ [0x0A])) : ChunkRes)) ++
        [Except.ok none]).filterMap
      (fun r : ChunkRes => match r with
        | Except.ok (some c) => some c
        | _ => none)).flatten
    = (lines.map (· ++ [0x0A])).flatten := by
  induction lines with
  | nil => rfl
  | cons x xs ih =>
    simp only [List.map_cons, List.cons_append, List.filterMap_cons,
      List.flatten_cons] at ih ⊢
    rw [ih]

/-! ## C2 -/

/-- C2: a plain-file input over N newline-terminated lines yields
exactly N `Some` chunks — each one full line, newline included — then
one `Ok(None)`, and the payloads concatenate back to the file. -/
theorem plain_file_line_chunks (env : FileEnv) (p : String)
    (lines : List (List Nat)) (fuel : Nat)
    (hfs : env.fs p = some ((lines.map (· ++ [0x0A])).flatten))
    (hnl : ∀ l ∈ lines, 0x0A ∉ l)
    (hv : ∀ l ∈ lines, utf8Valid (l ++ [0x0A]) = true)
    (hf : lines.length < fuel) :
    (FileInput.drain env ⟨none, p, none⟩ fuel).1
        = lines.map (fun l => Except.ok (some (l ++ [0x0A]))) ++
            [Except.ok none]
      ∧ ((FileInput.drain env ⟨none, p, none⟩ fuel).1.filterMap
            (fun r => match r with
              | .ok (some c) => some c
              | _ => none)).flatten
          = (lines.map (· ++ [0x0A])).flatten := by
  have hinit : FileInput.init_handle env ⟨none, p, none⟩
      = .ok ⟨none, p, some (.File ((lines.map (· ++ [0x0A])).flatten))⟩ := by
    simp only [FileInput.init_handle, hfs]
  cases fuel with
  | zero => omega
  | succ k =>
    rw [FileInput.drain_unopened rfl hinit k,
      FileInput.drain_plain env none p lines (k + 1) hf hnl hv]
    exact ⟨rfl, filterMap_payload lines⟩

/-- C2 witness: the two `linesW` lines in `envPlainW`. -/
theorem plain_file_line_chunks_witness :
    (FileInput.drain envPlainW ⟨none, "f", none⟩ 3).1
        = linesW.map (fun l => Except.ok (some (l ++ [0x0A]))) ++
            [Except.ok none]
      ∧ ((FileInput.drain envPlainW ⟨none, "f", none⟩ 3).1.filterMap
            (fun r => match r with
              | .ok (some c) => some c
              | _ => none)).flatten
          = (linesW.map (· ++ [0x0A])).flatten :=
  plain_file_line_chunks envPlainW "f" linesW 3 rfl (by decide) (by decide)
    (by decide)

/-! ## C9 -/

/-- C9: after any drain of a file-backed input, a successful `reset()`
makes re-draining produce the identical result sequence. -/
theorem reset_idempotent_replay (env : FileEnv) (cmp : Option Compression)
    (p : String) (fuel : Nat) (s2 : FileInput)
    (hreset : FileInput.reset env
        (FileInput.drain env ⟨cmp, p, none⟩ fuel).2 = (.ok (), s2)) :
    (FileInput.drain env s2 fuel).1
      = (FileInput.drain env ⟨cmp, p, none⟩ fuel).1 := by
  obtain ⟨hc, hp⟩ := FileInput.drain_fields env fuel ⟨cmp, p, none⟩
  have hdropped : ({ (FileInput.drain env ⟨cmp, p, none⟩ fuel).2 with
      handle := none } : FileInput) = ⟨cmp, p, none⟩ := by
    cases hs : (FileInput.drain env ⟨cmp, p, none⟩ fuel).2
    simp_all
  have hinit : FileInput.init_handle env ⟨cmp, p, none⟩ = .ok s2 := by
    simp only [FileInput.reset] at hreset
    rw [hdropped] at hreset
    cases hi : FileInput.init_handle env ⟨cmp, p, none⟩ with
    | error e => rw [hi] at hreset; simp at hreset
    | ok s =>
      rw [hi] at hreset
      simp only [Prod.mk.injEq] at hreset
      rw [hreset.2]
  cases fuel with
  | zero => rfl
  | succ k => rw [FileInput.drain_unopened rfl hinit k]

/-- C9 witness: drain, reset and re-drain the two-line file. -/
theorem reset_idempotent_replay_witness :
    (FileInput.drain envPlainW s2W 3).1
      = (FileInput.drain envPlainW ⟨none, "f", none⟩ 3).1 :=
  reset_idempotent_replay envPlainW none "f" 3 s2W (by rfl)

/-! ## C10 -/

/-- C10: every `Ok(Some bytes)` a plain-file input returns is valid
UTF-8 — its decode succeeds, so the pump's decode-skip path cannot
fire on it — and an invalid next line makes `chunk()` return the fatal
read error instead. -/
theorem plain_chunks_are_utf8 :
    (∀ (env : FileEnv) (inp : FileInput) (bytes : List Nat),
      inp.compression = none →
      (inp.handle = none ∨ ∃ bs, inp.handle = some (.File bs)) →
      (FileInput.chunk env inp).1 = .ok (some bytes) →
      utf8Valid bytes = true ∧ (utf8Decode bytes).isSome = true) ∧
    (∀ (env : FileEnv) (inp : FileInput) (bs : List Nat),
      inp.handle = some (.File bs) →
      (readLineBytes bs).1 ≠ [] →
      utf8Valid (readLineBytes bs).1 = false →
      (FileInput.chunk env inp).1
        = .error
          "Error reading line from file: stream did not contain valid UTF-8") := by
  have hopen : ∀ (inp : FileInput) (bs bytes : List Nat),
      (inp.chunkOpen (.File bs)).1 = .ok (some bytes) →
      utf8Valid bytes = true := by
    intro inp bs bytes h
    simp only [FileInput.chunkOpen] at h
    split_ifs at h with h1 h2
    · simp at h
    · have hb : (readLineBytes bs).1 = bytes := by simpa using h
      rw [← hb]
      exact h2
  have hinitFile : ∀ (env : FileEnv) (inp inp' : FileInput),
      inp.compression = none → inp.init_handle env = .ok inp' →
      ∃ bs, inp'.handle = some (.File bs) := by
    intro env inp inp' hc h
    cases hfs : env.fs inp.path with
    | none =>
      simp only [FileInput.init_handle, hfs] at h
      exact Except.noConfusion h
    | some bytes =>
      simp only [FileInput.init_handle, hfs, hc] at h
      injection h with h
      exact ⟨bytes, by rw [← h]⟩
  constructor
  · intro env inp bytes hc hh hres
    have hvalid : utf8Valid bytes = true := by
      rcases hh with hh | ⟨bs, hh⟩
      · cases hinit : inp.init_handle env with
        | error e =>
          rw [show FileInput.chunk env inp = (.error e, inp) from by
            simp only [FileInput.chunk, hh, hinit]] at hres
          exact Except.noConfusion hres
        | ok inp' =>
          obtain ⟨bs, hh'⟩ := hinitFile env inp inp' hc hinit
          rw [FileInput.chunk_unopened hh hinit] at hres
          rw [show FileInput.chunk env inp' = inp'.chunkOpen (.File bs) from by
            simp only [FileInput.chunk, hh']] at hres
          exact hopen inp' bs bytes hres
      · rw [show FileInput.chunk env inp = inp.chunkOpen (.File bs) from by
          simp only [FileInput.chunk, hh]] at hres
        exact hopen inp bs bytes hres
    exact ⟨hvalid, hvalid⟩
  · intro env inp bs hh hne hbad
    simp only [FileInput.chunk, hh, FileInput.chunkOpen]
    rw [if_neg hne, if_neg (by simp [hbad])]

/-- C10 witness: a valid first line and an invalid one. -/
theorem plain_chunks_are_utf8_witness :
    (utf8Valid [0x61, 0x0A] = true ∧
      (utf8Decode [0x61, 0x0A]).isSome = true) ∧
    (FileInput.chunk envPlainW inpBadLineW).1
      = .error
        "Error reading line from file: stream did not contain valid UTF-8" :=
  ⟨plain_chunks_are_utf8.1 envPlainW ⟨none, "f", none⟩ [0x61, 0x0A] rfl
      (Or.inl rfl) (by rfl),
   plain_chunks_are_utf8.2 envPlainW inpBadLineW [0xFF, 0x0A] rfl
      (by decide) (by decide)⟩

/-! ## Network-input lemmas -/

/-- Draining a held OK response of unknown length (no advertised
content-length) yields its transport chunks and then `Ok(None)`. -/
theorem UrlInput.drain_nolen (env : UrlEnv) (u : String) :
    ∀ (chunks : List (List Nat)) (fuel : Nat),
    chunks.length < fuel →
    UrlInput.drain env ⟨u, some ⟨200, none, chunks⟩⟩ fuel
      = (chunks.map (fun c => Except.ok (some c)) ++ [Except.ok none],
         ⟨u, some ⟨200, none, []⟩⟩) := by
  intro chunks
  induction chunks with
  | nil =>
    intro fuel hf
    cases fuel with
    | zero => omega
    | succ k =>
      simp only [UrlInput.drain, UrlInput.chunk, UrlInput.chunkBody]
      rw [if_neg (by simp), if_neg (by simp)]
      rfl
  | cons c cs ih =>
    intro fuel hf
    cases fuel with
    | zero => omega
    | succ k =>
      have hch : UrlInput.chunk env ⟨u, some ⟨200, none, c :: cs⟩⟩
          = (.ok (some c), ⟨u, some ⟨200, none, cs⟩⟩) := by
        simp only [UrlInput.chunk, UrlInput.chunkBody]
        rw [if_neg (by simp), if_neg (by simp)]
        rfl
      simp only [UrlInput.drain, hch]
      rw [ih k (by simp at hf ⊢; omega)]
      simp

/-- Draining a held OK response whose remaining length equals its
(nonempty-chunk) body yields the transport chunks and then the
empty-body ERROR: the drained body's remaining length is zero and the
per-call check fires before `Ok(None)` can be reached. -/
theorem UrlInput.drain_len (env : UrlEnv) (u : String) :
    ∀ (chunks : List (List Nat)) (L fuel : Nat),
    chunks.length < fuel →
    L = (chunks.map List.length).sum →
    (∀ c ∈ chunks, c ≠ []) →
    UrlInput.drain env ⟨u, some ⟨200, some L, chunks⟩⟩ fuel
      = (chunks.map (fun c => Except.ok (some c)) ++
          [Except.error ("empty response body: " ++ u)],
         ⟨u, some ⟨200, some 0, []⟩⟩) := by
  intro chunks
  induction chunks with
  | nil =>
    intro L fuel hf hL _
    have hL0 : L = 0 := by simpa using hL
    subst hL0
    cases fuel with
    | zero => omega
    | succ k =>
      simp only [UrlInput.drain, UrlInput.chunk, UrlInput.chunkBody]
      simp
  | cons c cs ih =>
    intro L fuel hf hL hne
    cases fuel with
    | zero => omega
    | succ k =>
      have hc0 : c ≠ [] := hne c (by simp)
      have hLpos : ¬((some L : Option Nat) = some 0) := by
        intro hEq
        injection hEq with hEq
        have hcl : c.length ≠ 0 := by
          intro h0
          exact hc0 (List.eq_nil_of_length_eq_zero h0)
        simp only [List.map_cons, List.sum_cons] at hL
        omega
      have hch : UrlInput.chunk env ⟨u, some ⟨200, some L, c :: cs⟩⟩
          = (.ok (some c), ⟨u, some ⟨200, some (L - c.length), cs⟩⟩) := by
        simp only [UrlInput.chunk, UrlInput.chunkBody]
        rw [if_neg (by simp), if_neg hLpos]
        rfl
      have hL' : L - c.length = (cs.map List.length).sum := by
        simp only [List.map_cons, List.sum_cons] at hL
        omega
      simp only [UrlInput.drain, hch]
      rw [hL', ih ((cs.map List.length).sum) k (by simp at hf ⊢; omega) rfl
        (fun x hx => hne x (by simp [hx]))]
      simp

/-! ## C4 -/

/-- C4 counterexample: the 200 response advertising three bytes in two
chunks satisfies the claim's hypotheses (OK status, non-zero content),
yet the drain delivers the two chunks and then ends with the
empty-body error, never `Ok(None)`: `content_length()` reports the
REMAINING body length, which is zero once the body is drained, and
the check runs on every call. -/
theorem url_streams_to_none_cex :
    (UrlInput.drain envOkW ⟨"u", none⟩ 4).1
        = [Except.ok (some [1, 2]), Except.ok (some [3]),
           Except.error ("empty response body: " ++ "u")] ∧
    (UrlInput.drain envOkW ⟨"u", none⟩ 4).1
      ≠ [[1, 2], [3]].map (fun c => (Except.ok (some c) : ChunkRes)) ++
          [Except.ok none] := by
  refine ⟨rfl, ?_⟩
  rw [show (UrlInput.drain envOkW ⟨"u", none⟩ 4).1
      = [Except.ok (some [1, 2]), Except.ok (some [3]),
         Except.error ("empty response body: " ++ "u")] from rfl]
  simp

/-- C4 (amended): on the very first `chunk()`, a non-OK status is an
error carrying the status code and the URL, and a zero remaining
content-length is an error rather than `Ok(None)`; a 200 response of
unknown length streams every transport chunk and then returns
`Ok(None)`; a 200 response advertising its body length streams every
transport chunk, after which the remaining length has dropped to zero
and the next `chunk()` returns the empty-body error instead of
`Ok(None)`. -/
theorem url_first_chunk_validation :
    (∀ (env : UrlEnv) (u : String) (r : HttpResponse),
      env.get = .ok r → r.status ≠ 200 →
      UrlInput.chunk env ⟨u, none⟩
        = (.error ("status code " ++ toString r.status ++ ": " ++ u),
           ⟨u, some r⟩)) ∧
    (∀ (env : UrlEnv) (u : String) (r : HttpResponse),
      env.get = .ok r → r.status = 200 → r.contentLength = some 0 →
      UrlInput.chunk env ⟨u, none⟩
        = (.error ("empty response body: " ++ u), ⟨u, some r⟩)) ∧
    (∀ (env : UrlEnv) (u : String) (chunks : List (List Nat)) (fuel : Nat),
      env.get = .ok ⟨200, none, chunks⟩ →
      chunks.length < fuel →
      (UrlInput.drain env ⟨u, none⟩ fuel).1
        = chunks.map (fun c => Except.ok (some c)) ++ [Except.ok none]) ∧
    (∀ (env : UrlEnv) (u : String) (chunks : List (List Nat)) (L fuel : Nat),
      env.get = .ok ⟨200, some L, chunks⟩ →
      L = (chunks.map List.length).sum →
      (∀ c ∈ chunks, c ≠ []) →
      chunks.length < fuel →
      (UrlInput.drain env ⟨u, none⟩ fuel).1
        = chunks.map (fun c => Except.ok (some c)) ++
            [Except.error ("empty response body: " ++ u)]) := by
  refine ⟨?_, ?_, ?_, ?_⟩
  · intro env u r hget hst
    simp only [UrlInput.chunk, hget, UrlInput.chunkBody]
    rw [if_pos hst]
  · intro env u r hget hst hcl
    simp only [UrlInput.chunk, hget, UrlInput.chunkBody]
    rw [if_neg (by simp [hst]), if_pos hcl]
  · intro env u chunks fuel hget hf
    cases fuel with
    | zero => omega
    | succ k =>
      have hstep : UrlInput.chunk env ⟨u, none⟩
          = UrlInput.chunk env ⟨u, some ⟨200, none, chunks⟩⟩ := by
        simp only [UrlInput.chunk, hget]
      have hdr : UrlInput.drain env ⟨u, none⟩ (k + 1)
          = UrlInput.drain env ⟨u, some ⟨200, none, chunks⟩⟩ (k + 1) := by
        simp only [UrlInput.drain, hstep]
      rw [hdr, UrlInput.drain_nolen env u chunks (k + 1) hf]
  · intro env u chunks L fuel hget hL hne hf
    cases fuel with
    | zero => omega
    | succ k =>
      have hstep : UrlInput.chunk env ⟨u, none⟩
          = UrlInput.chunk env ⟨u, some ⟨200, some L, chunks⟩⟩ := by
        simp only [UrlInput.chunk, hget]
      have hdr : UrlInput.drain env ⟨u, none⟩ (k + 1)
          = UrlInput.drain env ⟨u, some ⟨200, some L, chunks⟩⟩ (k + 1) := by
        simp only [UrlInput.drain, hstep]
      rw [hdr, UrlInput.drain_len env u chunks L (k + 1) hf hL hne]

/-- C4 witness: a 404 server, a zero-length server, a 200 server of
unknown length reaching `Ok(None)`, and a 200 server advertising
three bytes ending in the empty-body error. -/
theorem url_first_chunk_validation_witness :
    UrlInput.chunk env404W ⟨"u", none⟩
        = (.error ("status code " ++ toString (404 : Nat) ++ ": " ++ "u"),
           ⟨"u", some ⟨404, none, []⟩⟩) ∧
    UrlInput.chunk envCl0W ⟨"u", none⟩
        = (.error ("empty response body: " ++ "u"),
           ⟨"u", some ⟨200, some 0, []⟩⟩) ∧
    (UrlInput.drain envChunkedW ⟨"u", none⟩ 3).1
        = [[1, 2], [3]].map (fun c => Except.ok (some c)) ++
            [Except.ok none] ∧
    (UrlInput.drain envOkW ⟨"u", none⟩ 4).1
        = [[1, 2], [3]].map (fun c => Except.ok (some c)) ++
            [Except.error ("empty response body: " ++ "u")] :=
  ⟨url_first_chunk_validation.1 env404W "u" ⟨404, none, []⟩ rfl (by decide),
   url_first_chunk_validation.2.1 envCl0W "u" ⟨200, some 0, []⟩ rfl rfl rfl,
   url_first_chunk_validation.2.2.1 envChunkedW "u" [[1, 2], [3]] 3 rfl
     (by decide),
   url_first_chunk_validation.2.2.2 envOkW "u" [[1, 2], [3]] 3 4 rfl
     (by decide) (by decide) (by decide)⟩

/-! ## C3 -/

/-- C3 counterexample: with a response still held, `UrlInput::reset`
returns `Ok` without discarding it and without re-issuing the request:
the partially consumed response — different from the fresh one the
server would return — stays in place. -/
theorem reset_not_unconditional_cex :
    UrlInput.reset envFreshW inpHeldW = (.ok (), inpHeldW) ∧
    envFreshW.get = .ok freshW ∧
    inpHeldW.response = some respHeldW ∧
    respHeldW ≠ freshW :=
  ⟨rfl, rfl, rfl, by decide⟩

/-- C3 amended: `FileInput::reset` discards any held handle — its
outcome ignores the incoming handle and on success the state is the
freshly opened one — while `UrlInput::reset` issues the request only
when no response is held, keeping a held response untouched. -/
theorem reset_behavior :
    (∀ (env : FileEnv) (cmp : Option Compression) (p : String)
        (h1 h2 : Option Handle),
      FileInput.reset env ⟨cmp, p, h1⟩ = FileInput.reset env ⟨cmp, p, h2⟩) ∧
    (∀ (env : FileEnv) (inp inp' : FileInput),
      FileInput.reset env inp = (.ok (), inp') →
      FileInput.init_handle env { inp with handle := none } = .ok inp') ∧
    (∀ (env : UrlEnv) (u : String) (r : HttpResponse),
      UrlInput.reset env ⟨u, some r⟩ = (.ok (), ⟨u, some r⟩)) ∧
    (∀ (env : UrlEnv) (u : String) (r : HttpResponse),
      env.get = .ok r →
      UrlInput.reset env ⟨u, none⟩ = (.ok (), ⟨u, some r⟩)) := by
  refine ⟨?_, ?_, ?_, ?_⟩
  · intro env cmp p h1 h2
    rfl
  · intro env inp inp' h
    simp only [FileInput.reset] at h
    cases hi : FileInput.init_handle env { inp with handle := none } with
    | error e => rw [hi] at h; simp at h
    | ok s =>
      rw [hi] at h
      simp only [Prod.mk.injEq] at h
      rw [h.2]
  · intro env u r
    rfl
  · intro env u r h
    simp only [UrlInput.reset, h]

/-- C3 witness: the amended behavior on concrete states. -/
theorem reset_behavior_witness :
    FileInput.reset envPlainW ⟨none, "f", some (.File [])⟩
        = FileInput.reset envPlainW ⟨none, "f", none⟩ ∧
    FileInput.init_handle envPlainW ⟨none, "f", none⟩ = .ok s2W ∧
    UrlInput.reset envFreshW inpHeldW = (.ok (), inpHeldW) ∧
    UrlInput.reset envFreshW ⟨"u", none⟩ = (.ok (), ⟨"u", some freshW⟩) :=
  ⟨reset_behavior.1 envPlainW none "f" (some (.File [])) none,
   reset_behavior.2.1 envPlainW ⟨none, "f", some (.File [])⟩ s2W (by rfl),
   reset_behavior.2.2.1 envFreshW "u" respHeldW,
   reset_behavior.2.2.2 envFreshW "u" freshW rfl⟩

/-! ## C6 -/

/-- C6 counterexample: a 404 on the first `chunk()` returns the error
but retains the received response — the network input is not left
unopened. -/
theorem open_failure_state_cex :
    (UrlInput.chunk env404W ⟨"u", none⟩).2.response = some ⟨404, none, []⟩ ∧
    (UrlInput.chunk env404W ⟨"u", none⟩).2.response ≠ none ∧
    (UrlInput.chunk env404W ⟨"u", none⟩).1
      = .error ("status code " ++ toString (404 : Nat) ++ ": " ++ "u") :=
  ⟨rfl, by decide, rfl⟩

/-- C6 amended: an open failure surfaces as `Err`; file inputs and
failed network requests leave the state unopened so a later `chunk()`
retries the open, but a non-OK status (and likewise a zero-length
body) retains the response, so later calls re-fail on the stored
response without re-issuing the request. -/
theorem open_failure_leaves_state :
    (∀ (env : FileEnv) (inp : FileInput) (e : String),
      inp.handle = none → inp.init_handle env = .error e →
      FileInput.chunk env inp = (.error e, inp)) ∧
    (∀ (env : UrlEnv) (u e : String),
      env.get = .error e →
      UrlInput.chunk env ⟨u, none⟩ = (.error e, ⟨u, none⟩)) ∧
    (∀ (env : UrlEnv) (u : String) (r : HttpResponse),
      env.get = .ok r → r.status ≠ 200 →
      (UrlInput.chunk env ⟨u, none⟩).2 = ⟨u, some r⟩) ∧
    (∀ (env : UrlEnv) (u : String) (r : HttpResponse),
      env.get = .ok r → r.status = 200 → r.contentLength = some 0 →
      (UrlInput.chunk env ⟨u, none⟩).2 = ⟨u, some r⟩) ∧
    (∀ (env2 : UrlEnv) (u : String) (r : HttpResponse),
      r.status ≠ 200 →
      UrlInput.chunk env2 ⟨u, some r⟩
        = (.error ("status code " ++ toString r.status ++ ": " ++ u),
           ⟨u, some r⟩)) := by
  refine ⟨?_, ?_, ?_, ?_, ?_⟩
  · intro env inp e hh hi
    simp only [FileInput.chunk, hh, hi]
  · intro env u e h
    simp only [UrlInput.chunk, h]
  · intro env u r h hst
    simp only [UrlInput.chunk, h, UrlInput.chunkBody]
    rw [if_pos hst]
  · intro env u r h hst hcl
    simp only [UrlInput.chunk, h, UrlInput.chunkBody]
    rw [if_neg (by simp [hst]), if_pos hcl]
  · intro env2 u r hst
    simp only [UrlInput.chunk, UrlInput.chunkBody]
    rw [if_pos hst]

/-- C6 witness: a missing file, a failed request, and a 404 status. -/
theorem open_failure_leaves_state_witness :
    FileInput.chunk envFailW ⟨none, "f", none⟩
        = (.error ("unable to open file " ++ "f"), ⟨none, "f", none⟩) ∧
    UrlInput.chunk envErrW ⟨"u", none⟩
        = (.error "connection refused", ⟨"u", none⟩) ∧
    (UrlInput.chunk env404W ⟨"u", none⟩).2 = ⟨"u", some ⟨404, none, []⟩⟩ ∧
    (UrlInput.chunk envCl0W ⟨"u", none⟩).2 = ⟨"u", some ⟨200, some 0, []⟩⟩ ∧
    UrlInput.chunk env404W ⟨"u", some ⟨404, none, []⟩⟩
        = (.error ("status code " ++ toString (404 : Nat) ++ ": " ++ "u"),
           ⟨"u", some ⟨404, none, []⟩⟩) :=
  ⟨open_failure_leaves_state.1 envFailW ⟨none, "f", none⟩
      ("unable to open file " ++ "f") rfl rfl,
   open_failure_leaves_state.2.1 envErrW "u" "connection refused" rfl,
   open_failure_leaves_state.2.2.1 env404W "u" ⟨404, none, []⟩ rfl (by decide),
   open_failure_leaves_state.2.2.2.1 envCl0W "u" ⟨200, some 0, []⟩ rfl rfl rfl,
   open_failure_leaves_state.2.2.2.2 env404W "u" ⟨404, none, []⟩ (by decide)⟩

end Harvester
